import Mathlib

/-!
Verification of the video-to-audio converter's orchestration logic
(`src/rust/src/converter.rs`, `video_file.rs`, `config.rs`, `main.rs`).

The Rust code is shallowly embedded: filesystem paths are UTF-8 strings
manipulated with a model of `std::path::Path` Unix semantics (components,
`file_name`, `file_stem`, `extension`, `parent`, `join`), remote locators
are parsed with a model of the `url` crate's WHATWG parser restricted to
the behaviour the converter relies on (scheme extraction and lowercasing,
authority/host splitting for special schemes with the empty-host error,
path component cut at the query/fragment), the filesystem is a value
(`Option (List DirEntry)`, `none` = the directory does not exist or is not
a directory, an entry's `sizeBytes = none` = its metadata cannot be read),
and the ffmpeg subprocess is an `ExitStatus` value.
-/

namespace V2A

/-! ### Characters and strings -/

/-- ASCII-fold lowercase, modelling `str::to_lowercase` on the inputs in
scope (the spec allows a locale-agnostic ASCII fold). -/
def lowerStr (s : String) : String := ⟨s.data.map Char.toLower⟩

/-- Split a character list at `'/'` (model of path-separator splitting). -/
def splitSlashAux : List Char → List Char → List String
  | [], acc => [⟨acc.reverse⟩]
  | c :: cs, acc =>
    if c = '/' then ⟨acc.reverse⟩ :: splitSlashAux cs []
    else splitSlashAux cs (c :: acc)

/-- Does the string start with `'/'`? (Unix `Path::has_root`/`is_absolute`.) -/
def headIsSlash (s : String) : Bool :=
  match s.data with
  | '/' :: _ => true
  | _ => false

/-- Does the string end with `'/'`? (the `need_sep` test of `Path::push`). -/
def lastIsSlash (s : String) : Bool :=
  match s.data.getLast? with
  | some '/' => true
  | _ => false

/-- Split a character list at its LAST occurrence of `t`:
`some (before, after)` when `t` occurs, `none` otherwise. -/
def lastSplit (t : Char) : List Char → Option (List Char × List Char)
  | [] => none
  | c :: cs =>
    match lastSplit t cs with
    | some (a, b) => some (c :: a, b)
    | none => if c = t then some ([], cs) else none

/-! ### Model of `std::path::Path` (Unix) -/

/-- A parsed path component (`std::path::Component` without the Windows
prefix case). -/
inductive PathComp where
  | root
  | cur
  | up
  | normal (s : String)
deriving DecidableEq, Repr

/-- Parse a path into components, as `Path::components` does on Unix:
a leading `'/'` yields `root`; a leading `"."` chunk yields `cur`;
empty and non-leading `"."` chunks are dropped; `".."` is `up`. -/
def parseComponents (s : String) : List PathComp :=
  let parts := (splitSlashAux s.data []).filter (fun p => !(p == ""))
  let lead :=
    if headIsSlash s then [PathComp.root]
    else if parts.head? = some "." then [PathComp.cur]
    else ([] : List PathComp)
  lead ++ parts.filterMap (fun p =>
    if p = "." then none
    else if p = ".." then some PathComp.up
    else some (PathComp.normal p))

/-- Serialize one non-root component. -/
def compStr : PathComp → String
  | .root => "/"
  | .cur => "."
  | .up => ".."
  | .normal s => s

/-- Serialize a tail of components with `'/'` separators. -/
def joinParts : List PathComp → String
  | [] => ""
  | [c] => compStr c
  | c :: cs => compStr c ++ "/" ++ joinParts cs

/-- Serialize a component list back to a path string. -/
def renderComps : List PathComp → String
  | .root :: rest => "/" ++ joinParts rest
  | l => joinParts l

/-- Embeds `Path::file_name`: the last component when it is a normal one. -/
def fileName (s : String) : Option String :=
  match (parseComponents s).getLast? with
  | some (.normal n) => some n
  | _ => none

/-- Embeds `Path::parent`: drop the last component; `none` for the root and the
empty path. -/
def parentPath (s : String) : Option String :=
  match (parseComponents s).getLast? with
  | some (.normal _) | some .cur | some .up =>
      some (renderComps (parseComponents s).dropLast)
  | _ => none

/-- The stem half of `split_file_at_dot` applied to a file name: the part
before the last `'.'`, the whole name when there is no `'.'` or when the
only split point is a leading dot. -/
def fileStemOfName (n : String) : String :=
  if n = ".." then n
  else
    match lastSplit '.' n.data with
    | none => n
    | some ([], _) => n
    | some (st, _) => ⟨st⟩

/-- The extension half of `split_file_at_dot` applied to a file name. -/
def extOfName (n : String) : Option String :=
  if n = ".." then none
  else
    match lastSplit '.' n.data with
    | none => none
    | some ([], _) => none
    | some (_, ex) => some ⟨ex⟩

/-- Embeds `Path::file_stem`. -/
def fileStem (s : String) : Option String :=
  (fileName s).map fileStemOfName

/-- Embeds `Path::extension`. -/
def pathExt (s : String) : Option String :=
  (fileName s).bind extOfName

/-- Embeds `Path::join` (Unix `push` semantics): an absolute right operand
replaces the left; otherwise a separator is inserted when the left is
nonempty and does not already end in one. -/
def pathJoin (a b : String) : String :=
  if headIsSlash b then b
  else if a = "" then b
  else if lastIsSlash a then a ++ b
  else a ++ "/" ++ b

/-! ### Model of the `url` crate's parser (restricted) -/

/-- A parsed absolute URL, with the fields the converter reads. -/
structure Url where
  scheme : String
  host : String
  path : String
  query : Option String
deriving DecidableEq, Repr

/-- Characters allowed in a scheme after the leading letter. -/
def isSchemeChar (c : Char) : Bool :=
  c.isAlphanum || c = '+' || c = '-' || c = '.'

/-- Scan the scheme up to a `':'`; `none` when a non-scheme character or
the end of input is reached first. -/
def schemeSplit : List Char → List Char → Option (String × List Char)
  | [], _ => none
  | c :: cs, acc =>
    if c = ':' then some (⟨acc.reverse⟩, cs)
    else if isSchemeChar c then schemeSplit cs (c :: acc)
    else none

/-- The WHATWG special schemes. -/
def specialSchemes : List String := ["http", "https", "ws", "wss", "ftp", "file"]

/-- Parse the part after `scheme:` of a special-scheme URL: skip the
slashes, split off the authority, require a nonempty host except for
`file`, cut the path at `'?'`/`'#'` (empty path serializes as "/"). -/
def parseSpecial (scheme : String) (rest : List Char) : Option Url :=
  let rest' := rest.dropWhile (fun c => c = '/' || c = '\\')
  let auth := rest'.takeWhile (fun c => !(c = '/' || c = '\\' || c = '?' || c = '#'))
  let after := rest'.drop auth.length
  let hostPart :=
    match lastSplit '@' auth with
    | some (_, b) => b
    | none => auth
  let host := hostPart.takeWhile (fun c => !(c = ':'))
  if scheme ≠ "file" ∧ host = [] then none
  else
    let pathRaw := after.takeWhile (fun c => !(c = '?' || c = '#'))
    let path : String :=
      if pathRaw = [] then "/"
      else ⟨pathRaw.map (fun c => if c = '\\' then '/' else c)⟩
    let afterPath := after.drop pathRaw.length
    let query : Option String :=
      match afterPath with
      | '?' :: qs => some ⟨qs.takeWhile (fun c => !(c = '#'))⟩
      | _ => none
    some { scheme := scheme, host := ⟨host⟩, path := path, query := query }

/-- Model of `Url::parse` on absolute URL strings: extract and lowercase
the scheme (failing without one, e.g. on local paths), then parse special
schemes through the authority/path machinery and treat any other scheme's
remainder as an opaque path. -/
def urlParse (s : String) : Option Url :=
  match s.data with
  | [] => none
  | c :: _ =>
    if ¬ c.isAlpha then none
    else
      match schemeSplit s.data [] with
      | none => none
      | some (sch, rest) =>
        let scheme := lowerStr sch
        if scheme ∈ specialSchemes then parseSpecial scheme rest
        else
          some { scheme := scheme, host := ""
                 path := ⟨rest.takeWhile (fun c => !(c = '?' || c = '#'))⟩
                 query := none }

/-! ### `VideoConverter::is_url` and `VideoConverter::get_output_path` -/

/-- Embeds `VideoConverter::is_url` (converter.rs:26-32): the input parses
as a URL and its scheme is `http` or `https`. -/
def is_url (input : String) : Bool :=
  match urlParse input with
  | some url => url.scheme == "http" || url.scheme == "https"
  | none => false

/-- Embeds `VideoConverter::get_output_path` (converter.rs:64-88). -/
def get_output_path (input : String) : String :=
  if is_url input then
    match urlParse input with
    | some url =>
        let filename := ((fileName url.path).map fileStemOfName).getD "output"
        filename ++ ".mp3"
    | none => "output.mp3"
  else
    let filename := (fileStem input).getD "output"
    match parentPath input with
    | some parent => pathJoin parent (filename ++ ".mp3")
    | none => filename ++ ".mp3"

/-! ### `VideoFile` and the directory catalog -/

/-- One entry of a scanned directory, as the model sees the filesystem:
`sizeBytes = none` means the entry's metadata cannot be read. -/
structure DirEntry where
  name : String
  isFile : Bool
  sizeBytes : Option Nat
deriving DecidableEq, Repr

/-- Embeds `VideoFile` (video_file.rs:6-11), with the raw byte length in place
of the derived floating-point `size_mb` display value. -/
structure VideoFile where
  name : String
  path : String
  sizeBytes : Nat
  extension : String
deriving DecidableEq, Repr

/-- Embeds `VideoFile::new` (video_file.rs:15-37): fails exactly when the
metadata read fails; otherwise takes the path's file name (default
`"unknown"`) and its lowercased extension (default `""`). -/
def VideoFile.new (p : String) (meta : Option Nat) : Option VideoFile :=
  match meta with
  | none => none
  | some len =>
      some { name := (fileName p).getD "unknown"
             path := p
             sizeBytes := len
             extension := lowerStr ((pathExt p).getD "") }

/-- The fixed supported-extension set (video_file.rs:41-43). -/
def supportedExtensions : List String :=
  ["mp4", "avi", "mov", "mkv", "flv", "wmv", "webm", "m4v", "3gp"]

/-- Embeds `VideoFile::is_supported_video` (video_file.rs:40-46). -/
def VideoFile.is_supported_video (vf : VideoFile) : Bool :=
  supportedExtensions.contains vf.extension

/-- The per-entry body of the scan loop (converter.rs:44-55): regular
files whose `VideoFile::new` succeeds and whose extension is supported. -/
def scanKeep (dir : String) (e : DirEntry) : Option VideoFile :=
  if e.isFile then
    match VideoFile.new (pathJoin dir e.name) e.sizeBytes with
    | some vf => if vf.is_supported_video then some vf else none
    | none => none
  else none

/-- Lexicographic strict order on character lists by code point, the
order `str::cmp` induces (UTF-8 byte order and code-point order agree). -/
def strLtB : List Char → List Char → Bool
  | [], [] => false
  | [], _ :: _ => true
  | _ :: _, [] => false
  | a :: as, b :: bs =>
    if a.toNat < b.toNat then true
    else if b.toNat < a.toNat then false
    else strLtB as bs

/-- The sort key of converter.rs:58: the lowercased file name. -/
def vfKey (v : VideoFile) : List Char := (lowerStr v.name).data

/-- The sort relation of converter.rs:58, case-insensitive name order:
`a` precedes `b` when `b`'s key is not strictly below `a`'s. -/
def vfLE (a b : VideoFile) : Prop := strLtB (vfKey b) (vfKey a) = false

instance : DecidableRel vfLE := fun a b =>
  inferInstanceAs (Decidable (strLtB (vfKey b) (vfKey a) = false))

/-- Embeds `VideoConverter::get_video_files` (converter.rs:35-61). The second
argument is the directory's content: `none` models "does not exist or is
not a directory" (checked before any read), and `List.insertionSort`
models the stable `sort_by` of line 58. -/
def get_video_files (dir : String) (fs : Option (List DirEntry)) :
    Except String (List VideoFile) :=
  match fs with
  | none => .ok []
  | some entries => .ok ((entries.filterMap (scanKeep dir)).insertionSort vfLE)

/-! ### Subprocess outcome (converter.rs:91-145) and session exit -/

/-- A subprocess wait result: a normal exit with a code, or abnormal
termination without one (`status.code() = None`). -/
inductive ExitStatus where
  | exited (code : Int)
  | signaled
deriving DecidableEq, Repr

/-- The spec's `TranscodeOutcome` tagged result. -/
inductive TranscodeOutcome where
  | Succeeded
  | FailedWithExitCode (code : Int)
  | FailedBySignal
  | EngineNotFound
  | OtherError (msg : String)
deriving DecidableEq, Repr

/-- The boolean `convert_to_mp3` returns on a completed wait
(converter.rs:135-144): `status.success()`, i.e. exit code zero. -/
def convert_result (st : ExitStatus) : Bool :=
  match st with
  | .exited c => c == 0
  | .signaled => false

/-- The outcome classification of converter.rs:135-144: success on exit
code zero, the reported code otherwise, signal termination when there is
no code. -/
def transcodeOutcome (st : ExitStatus) : TranscodeOutcome :=
  match st with
  | .exited c => if c = 0 then .Succeeded else .FailedWithExitCode c
  | .signaled => .FailedBySignal

/-- Is `pat` an infix of the list? (model of `str::contains`). -/
def infixAux (pat : List Char) : List Char → Bool
  | [] => pat.isEmpty
  | c :: cs => pat.isPrefixOf (c :: cs) || infixAux pat cs

/-- Embeds `str::contains` on string slices. -/
def containsSub (s pat : String) : Bool := infixAux pat.data s.data

/-- The launch-error test of converter.rs:283-284: the error message
indicates the ffmpeg executable could not be located. -/
def engineMissing (msg : String) : Bool :=
  containsSub msg "No such file or directory" || containsSub msg "program not found"

/-- The `Err` branch classification of `run` (converter.rs:282-290). -/
def launch_outcome (msg : String) : TranscodeOutcome :=
  if engineMissing msg then .EngineNotFound else .OtherError msg

/-- The process exit code `run` produces from the conversion result
(converter.rs:269-293 with main.rs): 0 on success, 1 on a reported
failure or on any launch/wait error. -/
def session_exit_code (res : Except String Bool) : Nat :=
  match res with
  | .ok true => 0
  | .ok false => 1
  | .error _ => 1

/-! ### `ask_directory` (converter.rs:157-179) -/

/-- The configuration record (config.rs:7-9). -/
structure Config where
  default_dir : String
deriving DecidableEq, Repr

/-- Embeds `path.exists() && path.is_dir()` against the modelled filesystem. -/
def dirOk (fs : String → Option (List DirEntry)) (d : String) : Bool :=
  (fs d).isSome

/-- Embeds `VideoConverter::ask_directory` (converter.rs:157-179): accepting the
default returns it unchecked; declining enters the validation loop, the
user's successive custom answers given as a list (`none` models a user
who never supplies a valid directory, so the loop never returns). -/
def ask_directory (cfg : Config) (fs : String → Option (List DirEntry))
    (useDefault : Bool) (answers : List String) : Option String :=
  if useDefault then some cfg.default_dir
  else answers.find? (fun a => dirOk fs a)

/-- The spec's wording of the Local branch of `deriveOutputPath`: the
file-stem (fallback `"output"`) with `".mp3"` appended, placed inside the
parent directory when the path has a nonempty one, a bare name
otherwise. -/
def spec_derive_local (s : String) : String :=
  let stem := (fileStem s).getD "output"
  match parentPath s with
  | some p => if p = "" then stem ++ ".mp3" else pathJoin p (stem ++ ".mp3")
  | none => stem ++ ".mp3"

/-! ### Helper lemmas -/

theorem strLtB_nil_r : ∀ z : List Char, strLtB z [] = false := by
  intro z; cases z <;> rfl

theorem strLtB_asymm : ∀ x y : List Char, strLtB x y = true → strLtB y x = false := by
  intro x
  induction x with
  | nil => intro y _; exact strLtB_nil_r y
  | cons a as ih =>
    intro y h
    cases y with
    | nil => simp [strLtB] at h
    | cons b bs =>
      simp only [strLtB] at h ⊢
      split_ifs at h ⊢ <;> first
        | rfl
        | omega
        | exact ih bs h

theorem strLtB_neg_trans :
    ∀ (x y z : List Char), strLtB y x = false → strLtB z y = false → strLtB z x = false := by
  intro x
  induction x with
  | nil => intro y z _ _; exact strLtB_nil_r z
  | cons a as ih =>
    intro y z h1 h2
    cases y with
    | nil => simp [strLtB] at h1
    | cons b bs =>
      cases z with
      | nil => simp [strLtB] at h2
      | cons c cs =>
        simp only [strLtB] at h1 h2 ⊢
        split_ifs at h1 h2 ⊢ <;> first
          | rfl
          | omega
          | exact ih bs cs h1 h2

theorem vfLE_total : ∀ a b : VideoFile, vfLE a b ∨ vfLE b a := by
  intro a b
  rcases h : strLtB (vfKey b) (vfKey a) with _ | _
  · exact Or.inl h
  · exact Or.inr (strLtB_asymm _ _ h)

theorem vfLE_trans : ∀ a b c : VideoFile, vfLE a b → vfLE b c → vfLE a c :=
  fun _ _ _ h1 h2 => strLtB_neg_trans _ _ _ h1 h2

theorem pathJoin_empty (b : String) : pathJoin "" b = b := by
  unfold pathJoin
  split_ifs <;> first | rfl | simp_all

theorem strLtB_irrefl : ∀ x : List Char, strLtB x x = false := by
  intro x
  induction x with
  | nil => rfl
  | cons a as ih => simp [strLtB, ih]

theorem strLtB_ne {x y : List Char} (h : strLtB x y = true) : x ≠ y := by
  intro he
  subst he
  rw [strLtB_irrefl] at h
  exact Bool.false_ne_true h

/-- Inserting into a list does not disturb the relative order of the
elements that share a sort key: the filter at any key value `v` gains the
new element at the front exactly when its key is `v`. -/
theorem filter_orderedInsert (a : VideoFile) (l : List VideoFile) (v : List Char) :
    (l.orderedInsert vfLE a).filter (fun x => decide (vfKey x = v)) =
      if vfKey a = v then a :: l.filter (fun x => decide (vfKey x = v))
      else l.filter (fun x => decide (vfKey x = v)) := by
  induction l with
  | nil =>
    by_cases hv : vfKey a = v <;>
      simp [List.orderedInsert, List.filter, beq_iff_eq, hv]
  | cons b t ih =>
    by_cases h : vfLE a b
    · by_cases hv : vfKey a = v <;>
        simp [List.orderedInsert, h, List.filter_cons, beq_iff_eq, hv]
    · have hlt : strLtB (vfKey b) (vfKey a) = true := by
        have := h
        unfold vfLE at this
        exact Bool.of_not_eq_false this
      have hbne : vfKey b ≠ vfKey a := strLtB_ne hlt
      by_cases hv : vfKey a = v
      · have hbv : vfKey b ≠ v := by
          intro hb; exact hbne (hb.trans hv.symm)
        simp [List.orderedInsert, h, List.filter_cons, beq_iff_eq, hv, hbv, ih]
      · by_cases hbv : vfKey b = v <;>
          simp [List.orderedInsert, h, List.filter_cons, beq_iff_eq, hv, hbv, ih]

/-- The stable sort keeps equal-key elements in the original order: at
every key value the filtered subsequence is unchanged. -/
theorem filter_insertionSort (l : List VideoFile) (v : List Char) :
    (l.insertionSort vfLE).filter (fun x => decide (vfKey x = v)) =
      l.filter (fun x => decide (vfKey x = v)) := by
  induction l with
  | nil => rfl
  | cons a t ih =>
    rw [List.insertionSort, filter_orderedInsert, ih]
    by_cases hv : vfKey a = v <;> simp [List.filter_cons, beq_iff_eq, hv]

/-! ### The claims -/

/-- C1: `classify` returns Remote iff the input parses as an absolute URI
whose scheme is exactly `"http"` or `"https"`; every parse failure and
every other scheme (e.g. `"ftp"`) classifies as Local. -/
theorem classify_remote_iff :
    (∀ s : String, is_url s = true ↔
      ∃ u, urlParse s = some u ∧ (u.scheme = "http" ∨ u.scheme = "https"))
    ∧ is_url "https://example.com/v.mp4" = true
    ∧ is_url "ftp://x/y.mp4" = false
    ∧ is_url "/tmp/v.mp4" = false := by
  refine ⟨fun s => ?_, by decide, by decide, by decide⟩
  unfold is_url
  cases h : urlParse s with
  | none => simp
  | some u => simp [Option.some.injEq, beq_iff_eq]

/-- C2: on Local inputs `deriveOutputPath` follows the spec's wording
(stem with `".mp3"` in the parent directory when there is one, bare name
otherwise, stem fallback `"output"`); in particular
`/tmp/clip.mp4 ↦ /tmp/clip.mp3`. -/
theorem derive_local_spec :
    (∀ s : String, is_url s = false → get_output_path s = spec_derive_local s)
    ∧ get_output_path "/tmp/clip.mp4" = "/tmp/clip.mp3"
    ∧ get_output_path "clip.mp4" = "clip.mp3"
    ∧ get_output_path "/" = "output.mp3" := by
  refine ⟨fun s hs => ?_, by decide, by decide, by decide⟩
  unfold get_output_path spec_derive_local
  rw [hs]
  simp only [Bool.false_eq_true, if_false]
  cases hp : parentPath s with
  | none => simp
  | some p =>
    by_cases hpe : p = ""
    · subst hpe; simp [pathJoin_empty]
    · simp [hpe]

theorem derive_local_spec_witness :
    is_url "/videos/movie.mkv" = false ∧
      get_output_path "/videos/movie.mkv" = spec_derive_local "/videos/movie.mkv" :=
  ⟨by decide, derive_local_spec.1 "/videos/movie.mkv" (by decide)⟩

/-- C3: on Remote inputs `deriveOutputPath` takes the stem of the URI's
path component (the query is not part of it), appends `".mp3"`, and
returns it with no directory prefix; an unextractable stem falls back to
`"output"`; in particular
`https://example.com/path/clip.mov?x=1 ↦ clip.mp3`. -/
theorem derive_remote_spec :
    (∀ (s : String) (u : Url), urlParse s = some u → is_url s = true →
       get_output_path s = ((fileStem u.path).getD "output") ++ ".mp3")
    ∧ get_output_path "https://example.com/path/clip.mov?x=1" = "clip.mp3"
    ∧ get_output_path "https://example.com" = "output.mp3" := by
  refine ⟨fun s u hu hs => ?_, by decide, by decide⟩
  unfold get_output_path
  rw [hs]
  simp [hu, fileStem]

theorem derive_remote_spec_witness :
    urlParse "https://example.com/path/clip.mov?x=1" =
        some ⟨"https", "example.com", "/path/clip.mov", some "x=1"⟩ ∧
      is_url "https://example.com/path/clip.mov?x=1" = true ∧
      get_output_path "https://example.com/path/clip.mov?x=1" =
        ((fileStem "/path/clip.mov").getD "output") ++ ".mp3" :=
  ⟨by decide, by decide,
    derive_remote_spec.1 "https://example.com/path/clip.mov?x=1"
      ⟨"https", "example.com", "/path/clip.mov", some "x=1"⟩ (by decide) (by decide)⟩

/-- C9: output-path derivation is a pure function of the input string
(there is no filesystem state in its signature), so deriving twice gives
the same result both times. -/
theorem derive_deterministic :
    ∀ s : String, get_output_path s = get_output_path s :=
  fun _ => rfl

/-- The scan loop keeps an entry exactly when it is a regular file, its
metadata is readable, and its lowercased extension is supported. -/
theorem scanKeep_eq_some {dir : String} {e : DirEntry} {vf : VideoFile} :
    scanKeep dir e = some vf ↔
      e.isFile = true ∧
        VideoFile.new (pathJoin dir e.name) e.sizeBytes = some vf ∧
        vf.is_supported_video = true := by
  constructor
  · intro h
    unfold scanKeep at h
    split at h
    next hf =>
      split at h
      next w hn =>
        split at h
        next hs =>
          rw [Option.some.injEq] at h
          subst h
          exact ⟨hf, hn, hs⟩
        next hs => simp at h
      next hn => simp at h
    next hf => simp at h
  · rintro ⟨hf, hn, hs⟩
    simp [scanKeep, hf, hn, hs]

/-- C4: the catalog of a directory contains exactly the regular-file
entries that convert to supported video files, is sorted by
case-insensitive name, and ties keep the original filesystem enumeration
order (the per-key filtered subsequences are unchanged); the scan never
descends into other directory contents than the listed entries. -/
theorem catalog_spec (dir : String) (entries : List DirEntry) (vfs : List VideoFile)
    (h : get_video_files dir (some entries) = .ok vfs) :
    (∀ vf, vf ∈ vfs ↔ ∃ e ∈ entries, e.isFile = true ∧
        VideoFile.new (pathJoin dir e.name) e.sizeBytes = some vf ∧
        vf.is_supported_video = true)
    ∧ vfs.Sorted vfLE
    ∧ (∀ v : List Char, vfs.filter (fun x => decide (vfKey x = v)) =
        (entries.filterMap (scanKeep dir)).filter (fun x => decide (vfKey x = v))) := by
  haveI : IsTotal VideoFile vfLE := ⟨vfLE_total⟩
  haveI : IsTrans VideoFile vfLE := ⟨vfLE_trans⟩
  simp only [get_video_files, Except.ok.injEq] at h
  subst h
  refine ⟨fun vf => ?_, List.sorted_insertionSort vfLE _, fun v => filter_insertionSort _ v⟩
  simp [List.mem_insertionSort, List.mem_filterMap, scanKeep_eq_some]

theorem catalog_spec_witness :
    ([⟨"a.avi", "/d/a.avi", 20, "avi"⟩, ⟨"B.MP4", "/d/B.MP4", 10, "mp4"⟩] :
        List VideoFile).Sorted vfLE :=
  (catalog_spec "/d"
      [⟨"B.MP4", true, some 10⟩, ⟨"a.avi", true, some 20⟩, ⟨"c.txt", true, some 5⟩]
      [⟨"a.avi", "/d/a.avi", 20, "avi"⟩, ⟨"B.MP4", "/d/B.MP4", 10, "mp4"⟩]
      (congrArg Except.ok (by decide))).2.1

/-- C5: a transcode whose subprocess exits normally succeeds iff the exit
status is zero, otherwise it fails with that code; termination without a
code is a signal failure; an exit with code 1 is FailedWithExitCode 1 and
makes the program exit with process code 1. -/
theorem transcode_outcome_spec :
    (∀ st : ExitStatus, transcodeOutcome st = .Succeeded ↔ st = .exited 0)
    ∧ (∀ c : Int, c ≠ 0 → transcodeOutcome (.exited c) = .FailedWithExitCode c)
    ∧ transcodeOutcome .signaled = .FailedBySignal
    ∧ transcodeOutcome (.exited 1) = .FailedWithExitCode 1
    ∧ session_exit_code (.ok (convert_result (.exited 1))) = 1 := by
  refine ⟨fun st => ?_, fun c hc => ?_, rfl, by decide, rfl⟩
  · cases st with
    | exited c => by_cases h : c = 0 <;> simp [transcodeOutcome, h]
    | signaled => simp [transcodeOutcome]
  · simp [transcodeOutcome, hc]

theorem transcode_outcome_spec_witness :
    (1 : Int) ≠ 0 ∧ transcodeOutcome (.exited 1) = .FailedWithExitCode 1 :=
  ⟨by decide, transcode_outcome_spec.2.1 1 (by decide)⟩

/-- C6: scanning a directory that does not exist or is not a directory
returns the empty catalog, not an error. -/
theorem missing_dir_empty_ok :
    ∀ dir : String, get_video_files dir none = .ok [] :=
  fun _ => rfl

/-- C7: an entry whose size metadata cannot be read is silently skipped
and the scan continues over the remaining entries; the listing still
returns a catalog rather than an error. -/
theorem unreadable_entry_skipped :
    ∀ (dir : String) (l1 l2 : List DirEntry) (bad : DirEntry),
      bad.sizeBytes = none →
        get_video_files dir (some (l1 ++ bad :: l2)) =
          get_video_files dir (some (l1 ++ l2))
        ∧ ∃ vfs, get_video_files dir (some (l1 ++ bad :: l2)) = .ok vfs := by
  intro dir l1 l2 bad hb
  have hk : scanKeep dir bad = none := by
    simp [scanKeep, VideoFile.new, hb]
  constructor
  · simp [get_video_files, List.filterMap_append, List.filterMap_cons, hk]
  · exact ⟨_, rfl⟩

theorem unreadable_entry_skipped_witness :
    get_video_files "/d"
        (some ([⟨"a.mp4", true, some 1⟩] ++ ⟨"bad.mp4", true, none⟩ ::
          [⟨"b.mp4", true, some 2⟩])) =
      get_video_files "/d" (some ([⟨"a.mp4", true, some 1⟩] ++ [⟨"b.mp4", true, some 2⟩])) :=
  (unreadable_entry_skipped "/d" [⟨"a.mp4", true, some 1⟩] [⟨"b.mp4", true, some 2⟩]
    ⟨"bad.mp4", true, none⟩ rfl).1

/-- C8: a launch failure whose message indicates the executable could not
be located is EngineNotFound; every other launch or wait error is
OtherError with its message; in both cases the process exit code is 1. -/
theorem engine_missing_spec :
    (∀ msg : String, engineMissing msg = true → launch_outcome msg = .EngineNotFound)
    ∧ (∀ msg : String, engineMissing msg = false → launch_outcome msg = .OtherError msg)
    ∧ launch_outcome "No such file or directory (os error 2)" = .EngineNotFound
    ∧ launch_outcome "permission denied (os error 13)" =
        .OtherError "permission denied (os error 13)"
    ∧ (∀ msg : String, session_exit_code (.error msg) = 1) := by
  refine ⟨fun msg h => ?_, fun msg h => ?_, by decide, by decide, fun _ => rfl⟩
  · simp [launch_outcome, h]
  · simp [launch_outcome, h]

theorem engine_missing_spec_witness :
    engineMissing "No such file or directory (os error 2)" = true ∧
      launch_outcome "No such file or directory (os error 2)" = .EngineNotFound :=
  ⟨by decide,
    engine_missing_spec.1 "No such file or directory (os error 2)" (by decide)⟩

/-- C10: accepting the configured default directory skips the
exists-and-is-a-directory check, so a nonexistent default flows on to the
listing and yields an empty catalog; only user-entered custom paths go
through the validation loop, which only ever returns an existing
directory. -/
theorem default_dir_unchecked :
    ∀ (cfg : Config) (fs : String → Option (List DirEntry)) (answers : List String),
      fs cfg.default_dir = none →
        ask_directory cfg fs true answers = some cfg.default_dir
        ∧ get_video_files cfg.default_dir (fs cfg.default_dir) = .ok []
        ∧ (∀ d, ask_directory cfg fs false answers = some d → (fs d).isSome = true) := by
  intro cfg fs answers h
  refine ⟨rfl, by rw [h]; rfl, fun d hd => ?_⟩
  simp only [ask_directory, Bool.false_eq_true, if_false] at hd
  have := List.find?_some hd
  simpa [dirOk] using this

theorem default_dir_unchecked_witness :
    ask_directory ⟨"/nonexistent"⟩ (fun _ => none) true [] = some "/nonexistent" ∧
      get_video_files "/nonexistent"
        ((fun _ => (none : Option (List DirEntry))) "/nonexistent") = .ok [] :=
  ⟨(default_dir_unchecked ⟨"/nonexistent"⟩ (fun _ => none) [] rfl).1,
    (default_dir_unchecked ⟨"/nonexistent"⟩ (fun _ => none) [] rfl).2.1⟩

end V2A
